import Mathlib

set_option maxRecDepth 4000

/-!
# Milan telecom data-cleaning pipeline: a shallow embedding

This file embeds the cleaning/aggregation/resampling pipeline of the
notebook `Data_Cleaning_and_Aggregation.ipynb` and proves properties of it.

Modelling conventions:
* pandas float values are modelled as exact rationals (`ℚ`);
* a raw input file is a list of lines, each line a list of tab-separated
  fields; an empty (missing) field is `none`, a present numeric field is
  `some q`;
* timestamps stay in epoch-milliseconds (`pd.to_datetime(..., unit="ms")`
  is an order-isomorphism onto calendar timestamps, so bucketing arithmetic
  is done directly on the millisecond values);
* the dataframe of a stage is a list of records; row order carries no
  meaning for any of the properties proved here;
* writing CSV files and printing progress are I/O effects outside the
  embedding: `clean_data` returns the record list that the notebook
  writes, and `process_files` returns the association list of written
  outputs together with the exception, if any, that escaped the loop.
-/

namespace MilanPipeline

/-- One raw line after tokenizing: the eight tab-separated fields of the
fixed schema `square_id, time_interval, country_code, sms_in, sms_out,
call_in, call_out, internet_traffic`, each possibly missing.  `pd.read_csv`
turns an empty field of a short row into `NaN`; `none` models that. -/
structure RawRecord where
  square_id : Option ℚ
  time_interval : Option ℚ
  country_code : Option ℚ
  sms_in : Option ℚ
  sms_out : Option ℚ
  call_in : Option ℚ
  call_out : Option ℚ
  internet_traffic : Option ℚ
deriving DecidableEq

/-- A raw record after `df.fillna(0)`: every field is a plain number. -/
structure FilledRecord where
  square_id : ℚ
  time_interval : ℚ
  country_code : ℚ
  sms_in : ℚ
  sms_out : ℚ
  call_in : ℚ
  call_out : ℚ
  internet_traffic : ℚ
deriving DecidableEq

/-- `df.fillna(0)`: replace every missing field by the number `0`. -/
def fillna (r : RawRecord) : FilledRecord where
  square_id := r.square_id.getD 0
  time_interval := r.time_interval.getD 0
  country_code := r.country_code.getD 0
  sms_in := r.sms_in.getD 0
  sms_out := r.sms_out.getD 0
  call_in := r.call_in.getD 0
  call_out := r.call_out.getD 0
  internet_traffic := r.internet_traffic.getD 0

/-- The projection `df[selected_columns]` for the notebook's configuration
`selected_columns = [square_id, time_interval, internet_traffic]`. -/
structure Selected where
  square_id : ℚ
  time_interval : ℚ
  internet_traffic : ℚ
deriving DecidableEq

/-- `df[['square_id', 'time_interval', 'internet_traffic']]`. -/
def select (r : FilledRecord) : Selected :=
  ⟨r.square_id, r.time_interval, r.internet_traffic⟩

/-- One tokenized input line: its fields in order, `none` for an empty
field. -/
abbrev RawLine := List (Option ℚ)

/-- A raw input file: its tokenized lines. -/
abbrev RawFile := List RawLine

/-- Assign the eight schema column names to the fields of a line, reading
absent trailing fields as missing (`pd.read_csv` pads a short row with
`NaN`). -/
def lineToRecord (line : RawLine) : RawRecord where
  square_id := line.getD 0 none
  time_interval := line.getD 1 none
  country_code := line.getD 2 none
  sms_in := line.getD 3 none
  sms_out := line.getD 4 none
  call_in := line.getD 5 none
  call_out := line.getD 6 none
  internet_traffic := line.getD 7 none

/-- Assign the eight schema column names to the fields of a line after
skipping its first `k` fields — the leading columns `pd.read_csv`
promotes to the dataframe index when the first line is wider than the
eight passed names.  Absent trailing fields read as missing. -/
def lineToRecordFrom (k : ℕ) (line : RawLine) : RawRecord where
  square_id := line.getD k none
  time_interval := line.getD (k + 1) none
  country_code := line.getD (k + 2) none
  sms_in := line.getD (k + 3) none
  sms_out := line.getD (k + 4) none
  call_in := line.getD (k + 5) none
  call_out := line.getD (k + 6) none
  internet_traffic := line.getD (k + 7) none

/-- How many leading fields of each row `pd.read_csv` promotes to the
dataframe index: the amount by which the first line is wider than the
eight passed names (0 for a well-formed file). -/
def indexWidth (file : RawFile) : ℕ := (file.headD []).length - 8

/-- The table width the pandas tokenizer establishes from the eight
passed names and the first data line: the larger of the two. -/
def establishedWidth (file : RawFile) : ℕ := max 8 (file.headD []).length

/-- The errors the embedded pipeline can raise.  `malformedInputError`
stands for the parse error (`pandas.errors.ParserError`) that
`pd.read_csv` raises on a line wider than the established table width. -/
inductive PipelineError where
  | malformedInputError
deriving DecidableEq

/-- `read_and_preprocess`: tokenize the tab-separated file against the
fixed eight-column schema, fill missing values with `0`, and project onto
the selected columns.  The pandas tokenizer (with `names` passing eight
column names) establishes the table width from the names and the first
line: a first line wider than the names promotes its extra leading
columns to the index rather than erroring; only a later line wider than
the established width raises the parse error; a line carrying fewer
fields is silently `NaN`-padded. -/
def read_and_preprocess (file : RawFile) :
    Except PipelineError (List Selected) :=
  if file.any (fun line => establishedWidth file < line.length) then
    .error .malformedInputError
  else
    .ok (file.map (fun line =>
      select (fillna (lineToRecordFrom (indexWidth file) line))))

/-- A grouping key of the aggregation stage: `(square_id, time_interval)`. -/
abbrev AggKey := ℚ × ℚ

/-- One row of the aggregated dataframe: `time_interval` (held as its
epoch-millisecond value) is the time index, `internet_traffic` the summed
numeric column. -/
structure AggRecord where
  square_id : ℚ
  time_interval : ℚ
  internet_traffic : ℚ
deriving DecidableEq

/-- The distinct `(square_id, time_interval)` keys of the input, i.e. the
groups formed by `df.groupby(['square_id', 'time_interval'])`. -/
def aggKeys (rows : List Selected) : List AggKey :=
  (rows.map (fun r => (r.square_id, r.time_interval))).dedup

/-- The sum of `internet_traffic` over the rows of one
`(square_id, time_interval)` group. -/
def groupSum (rows : List Selected) (k : AggKey) : ℚ :=
  ((rows.filter (fun r => (r.square_id, r.time_interval) = k)).map
    (fun r => r.internet_traffic)).sum

/-- `aggregate_data`: group by `(square_id, time_interval)` with exact key
equality, sum the non-key numeric column within each group, convert the
time interval to the time index.  No group is dropped. -/
def aggregate_data (rows : List Selected) : List AggRecord :=
  (aggKeys rows).map (fun k => ⟨k.1, k.2, groupSum rows k⟩)

/-- Milliseconds in one day. -/
def dayMs : ℚ := 86400000

/-- Midnight of the calendar day containing time `t`. -/
def startOfDay (t : ℚ) : ℚ := dayMs * (⌊t / dayMs⌋ : ℤ)

/-- The earliest aggregated timestamp of one square (0 when the square
has no rows; never used in that case). -/
def earliestTime (agg : List AggRecord) (sid : ℚ) : ℚ :=
  ((agg.filter (fun a => a.square_id = sid)).map
      (fun a => a.time_interval)).foldl min
    (((agg.filter (fun a => a.square_id = sid)).map
        (fun a => a.time_interval)).headD 0)

/-- The resample origin of one square: pandas `resample` defaults to
origin `start_day`, midnight of the day of the first observed timestamp
of the resampled (per-square) frame. -/
def originOf (agg : List AggRecord) (sid : ℚ) : ℚ :=
  startOfDay (earliestTime agg sid)

/-- The left edge of the resampling bucket holding time `t`: buckets are
`freq`-wide, left-closed, left-labeled, and consecutive from the
origin. -/
def bucketStartFrom (origin freq t : ℚ) : ℚ :=
  origin + freq * (⌊(t - origin) / freq⌋ : ℤ)

/-- A resampling key: `(square_id, bucket left edge)`. -/
abbrev RKey := ℚ × ℚ

/-- The resampling key of one aggregated row: its square, and the left
edge of the bucket of its timestamp under the origin of that square. -/
def rkey (agg : List AggRecord) (freq : ℚ) (a : AggRecord) : RKey :=
  (a.square_id,
    bucketStartFrom (originOf agg a.square_id) freq a.time_interval)

/-- The distinct `(square_id, bucket)` keys populated by the aggregated
rows. -/
def rkeys (agg : List AggRecord) (freq : ℚ) : List RKey :=
  (agg.map (rkey agg freq)).dedup

/-- The summed `internet_traffic` of one `(square_id, bucket)` cell. -/
def bucketSum (agg : List AggRecord) (freq : ℚ) (k : RKey) : ℚ :=
  ((agg.filter (fun a => rkey agg freq a = k)).map
    (fun a => a.internet_traffic)).sum

/-- One row of the final output CSV. -/
structure OutRecord where
  square_id : ℚ
  time_interval : ℚ
  internet_traffic : ℚ
deriving DecidableEq

/-- `resample_data`:
`df.groupby('square_id').resample(frequency)['internet_traffic'].agg('sum')
.loc[lambda x: x>0].reset_index()`.  Per square, the time axis is cut into
`freq`-wide buckets anchored at that square's start-day origin and traffic
is summed per bucket; pandas
materializes empty intermediate buckets with sum `0`, but the `x>0` filter
removes every bucket whose sum is not positive, so the surviving rows are
exactly the populated buckets with positive sum. -/
def resample_data (agg : List AggRecord) (freq : ℚ) : List OutRecord :=
  ((rkeys agg freq).map
      (fun k => OutRecord.mk k.1 k.2 (bucketSum agg freq k))).filter
    (fun o => 0 < o.internet_traffic)

/-- The default resampling frequency: `'H'`, one hour, in milliseconds. -/
def hourMs : ℚ := 3600000

/-- `clean_data`: read and preprocess, aggregate, resample.  The notebook
calls `resample_data(df)` with no frequency argument, so the default
hourly frequency is always used; the returned list is what is written to
the destination CSV. -/
def clean_data (file : RawFile) : Except PipelineError (List OutRecord) :=
  (read_and_preprocess file).map
    (fun rows => resample_data (aggregate_data rows) hourMs)

/-- `process_files`: run `clean_data` on each file of the source folder in
turn.  The loop body is not guarded by any exception handler, so the first
raised error propagates out of the loop: the result is the list of
outputs written before the error, paired with the escaped error, if any.  -/
def process_files (files : List (String × RawFile)) :
    List (String × List OutRecord) × Option PipelineError :=
  match files with
  | [] => ([], none)
  | (name, content) :: rest =>
    match clean_data content with
    | .error e => ([], some e)
    | .ok out =>
      let r := process_files rest
      ((name, out) :: r.1, r.2)

/-- The summed `internet_traffic` of the aggregated (pre-resample) rows of
one square. -/
def aggSumFor (agg : List AggRecord) (sid : ℚ) : ℚ :=
  ((agg.filter (fun a => a.square_id = sid)).map (fun a => a.internet_traffic)).sum

/-- The summed `internet_traffic` of the output rows of one square. -/
def outSumFor (out : List OutRecord) (sid : ℚ) : ℚ :=
  ((out.filter (fun o => o.square_id = sid)).map (fun o => o.internet_traffic)).sum

/-- The total traffic of the buckets of one square that the resampling drop
rule (keep only sums strictly above zero) removes. -/
def droppedSumFor (agg : List AggRecord) (freq sid : ℚ) : ℚ :=
  (((rkeys agg freq).filter
      (fun k => k.1 = sid ∧ bucketSum agg freq k ≤ 0)).map
    (fun k => bucketSum agg freq k)).sum

/-- A well-formed one-line daily file: square 1, epoch-ms timestamp
1383260400000, country 39, traffic 5. -/
def validFile : RawFile :=
  [[some 1, some 1383260400000, some 39, some 0, some 0, some 0, some 0, some 5]]

/-- A file whose single (and hence first) line carries nine tab-separated
fields, one more than the schema: pandas loads it, promoting the leading
field to the index. -/
def overwideFirstLineFile : RawFile :=
  [[some 1, some 1, some 1, some 1, some 1, some 1, some 1, some 1, some 9]]

/-- A ragged file: a well-formed eight-field first line followed by a
nine-field line, wider than the established table width — the input on
which pandas raises its parse error. -/
def raggedFile : RawFile :=
  [[some 1, some 1383260400000, some 39, some 0, some 0, some 0, some 0, some 5],
   [some 2, some 1383260400000, some 39, some 0, some 0, some 0, some 0, some 7, some 9]]

/-- A file whose single line carries only three of the eight schema
fields. -/
def shortLineFile : RawFile := [[some 1, some 1000, some 39]]

/-- A file with two records of square 1 inside the same hour but in
different half-hours, with traffic 1 and 2. -/
def freqDemoFile : RawFile :=
  [[some 1, some 0, some 39, some 0, some 0, some 0, some 0, some 1],
   [some 1, some 1800000, some 39, some 0, some 0, some 0, some 0, some 2]]

/-- The selected records the Loader produces from `freqDemoFile`. -/
def freqDemoRows : List Selected := [⟨1, 0, 1⟩, ⟨1, 1800000, 2⟩]

/-- A raw line in which every one of the eight fields is missing. -/
def allMissingRecord : RawRecord := ⟨none, none, none, none, none, none, none, none⟩

/-- Two selected rows of the same `(square_id, time_interval)` group whose
traffic sums to zero. -/
def zeroGroupRows : List Selected := [⟨1, 5, 2⟩, ⟨1, 5, -2⟩]

/-! ## Helper lemmas -/

/-- Membership in the resampler output: exactly the populated bucket keys
with positive sum, carrying that sum. -/
theorem mem_resample_data {agg : List AggRecord} {freq : ℚ} {o : OutRecord} :
    o ∈ resample_data agg freq
      ↔ ∃ k, k ∈ rkeys agg freq ∧ 0 < bucketSum agg freq k
          ∧ o = ⟨k.1, k.2, bucketSum agg freq k⟩ := by
  unfold resample_data
  constructor
  · intro ho
    obtain ⟨hmem, hpos⟩ := List.mem_filter.mp ho
    obtain ⟨k, hk, rfl⟩ := List.mem_map.mp hmem
    exact ⟨k, hk, by simpa using hpos, rfl⟩
  · rintro ⟨k, hk, hpos, rfl⟩
    exact List.mem_filter.mpr ⟨List.mem_map.mpr ⟨k, hk, rfl⟩, by simpa⟩

/-- A successful `clean_data` run is the resampling, at the default hourly
frequency, of the aggregation of the loaded rows. -/
theorem clean_data_ok {file : RawFile} {out : List OutRecord}
    (h : clean_data file = .ok out) :
    ∃ rows : List Selected, read_and_preprocess file = .ok rows
      ∧ out = resample_data (aggregate_data rows) hourMs := by
  unfold clean_data at h
  cases hr : read_and_preprocess file with
  | error e => rw [hr] at h; simp [Except.map] at h
  | ok rows =>
    rw [hr] at h
    simp only [Except.map, Except.ok.injEq] at h
    exact ⟨rows, rfl, h.symm⟩

/-- Summation distributes over a pointwise sum of mapped functions. -/
theorem sum_map_add_distrib {K : Type} (D : List K) (f g : K → ℚ) :
    (D.map (fun k => f k + g k)).sum = (D.map f).sum + (D.map g).sum := by
  induction D with
  | nil => simp
  | cons k t ih => simp only [List.map_cons, List.sum_cons, ih]; ring

/-- Over a duplicate-free list containing `k0`, the sum of the indicator
function of `k0` weighted by `c` is `c`. -/
theorem sum_map_single {K : Type} [DecidableEq K] (c : ℚ) :
    ∀ D : List K, D.Nodup → ∀ k0 ∈ D,
      (D.map (fun k => if k0 = k then c else 0)).sum = c := by
  intro D
  induction D with
  | nil => intro _ k0 hk0; cases hk0
  | cons k t ih =>
    intro hD k0 hk0
    rcases List.mem_cons.mp hk0 with h | h
    · subst h
      have hzero : (t.map (fun x => if k0 = x then c else 0)).sum = 0 := by
        apply List.sum_eq_zero
        intro x hx
        obtain ⟨y, hy, rfl⟩ := List.mem_map.mp hx
        have hne : k0 ≠ y := fun he => (List.nodup_cons.mp hD).1 (he ▸ hy)
        simp [hne]
      simp [hzero]
    · have hne : k0 ≠ k := by
        intro he
        exact (List.nodup_cons.mp hD).1 (he ▸ h)
      simp only [List.map_cons, List.sum_cons, if_neg hne, zero_add]
      exact ih (List.nodup_cons.mp hD).2 k0 h

/-- Filtering and summing after a map is filtering and summing the source
through the map. -/
theorem sum_map_filter_map {α K : Type} (l : List K) (f : K → α)
    (p : α → Bool) (v : α → ℚ) :
    (((l.map f).filter p).map v).sum
      = ((l.filter (fun k => p (f k))).map (fun k => v (f k))).sum := by
  induction l with
  | nil => rfl
  | cons k t ih =>
    by_cases h : p (f k) <;>
      simp only [List.map_cons, List.filter_cons, h, if_true, if_false,
        Bool.false_eq_true, List.sum_cons, ih]

/-- Splitting a filtered sum along a second predicate and its negation. -/
theorem sum_map_filter_split {K : Type} (l : List K) (q p : K → Bool)
    (v : K → ℚ) :
    ((l.filter (fun k => q k && p k)).map v).sum
      + ((l.filter (fun k => q k && !p k)).map v).sum
      = ((l.filter q).map v).sum := by
  induction l with
  | nil => simp
  | cons k t ih =>
    by_cases hq : q k <;> by_cases hp : p k <;>
      simp only [List.filter_cons, hq, hp, Bool.true_and, Bool.false_and,
        Bool.not_true, Bool.not_false, if_true, if_false, Bool.false_eq_true,
        List.map_cons, List.sum_cons] <;>
      linarith [ih]

/-- The sums of the fibers of a key function, taken over the distinct keys
of a list, add up to the total sum. -/
theorem sum_fiberwise {α K : Type} [DecidableEq K] (κ : α → K) (v : α → ℚ) :
    ∀ l : List α,
      (((l.map κ).dedup).map
          (fun k => ((l.filter (fun x => κ x = k)).map v).sum)).sum
        = (l.map v).sum := by
  intro l
  induction l with
  | nil => simp
  | cons a t ih =>
    have hfib : ∀ k : K, (((a :: t).filter (fun x => κ x = k)).map v).sum
        = (if κ a = k then v a else 0)
          + ((t.filter (fun x => κ x = k)).map v).sum := by
      intro k
      by_cases h : κ a = k <;> simp [List.filter_cons, h]
    by_cases hmem : κ a ∈ t.map κ
    · rw [List.map_cons, List.dedup_cons_of_mem hmem,
        List.map_congr_left (fun k _ => hfib k), sum_map_add_distrib,
        sum_map_single (v a) ((t.map κ).dedup) (List.nodup_dedup _) (κ a)
          (List.mem_dedup.mpr hmem),
        ih, List.map_cons, List.sum_cons]
    · rw [List.map_cons, List.dedup_cons_of_not_mem hmem, List.map_cons,
        List.sum_cons]
      have h1 : (((a :: t).filter (fun x => κ x = κ a)).map v).sum = v a := by
        have ht : t.filter (fun x => κ x = κ a) = [] := by
          apply List.filter_eq_nil_iff.mpr
          intro x hx
          simp only [decide_eq_true_eq]
          intro he
          exact hmem (he ▸ List.mem_map_of_mem κ hx)
        simp [List.filter_cons, ht]
      have h2 : ((t.map κ).dedup.map
            (fun k => (((a :: t).filter (fun x => κ x = k)).map v).sum)).sum
          = ((t.map κ).dedup.map
              (fun k => ((t.filter (fun x => κ x = k)).map v).sum)).sum := by
        apply congrArg List.sum
        apply List.map_congr_left
        intro k hk
        have hne : κ a ≠ k := fun he => hmem (he ▸ List.mem_dedup.mp hk)
        rw [hfib k, if_neg hne, zero_add]
      rw [h1, h2, ih, List.map_cons, List.sum_cons]

/-! ## Claim theorems -/

/-- C2: the resampler keeps only buckets whose summed traffic is positive,
so no row of its output, and hence no row of any successful per-file
pipeline run, has `internet_traffic` equal to zero. -/
theorem no_zero_traffic_in_output :
    (∀ (agg : List AggRecord) (freq : ℚ) (o : OutRecord),
        o ∈ resample_data agg freq → o.internet_traffic ≠ 0)
    ∧ ∀ (file : RawFile) (out : List OutRecord) (o : OutRecord),
        clean_data file = .ok out → o ∈ out → o.internet_traffic ≠ 0 := by
  have h1 : ∀ (agg : List AggRecord) (freq : ℚ) (o : OutRecord),
      o ∈ resample_data agg freq → o.internet_traffic ≠ 0 := by
    intro agg freq o ho
    obtain ⟨k, -, hpos, rfl⟩ := mem_resample_data.mp ho
    exact hpos.ne'
  refine ⟨h1, ?_⟩
  intro file out o hfile ho
  obtain ⟨rows, -, rfl⟩ := clean_data_ok hfile
  exact h1 _ _ _ ho

/-- Witness for C2 at a concrete run: the single output row of the demo
file has nonzero traffic. -/
theorem no_zero_traffic_in_output_witness :
    (OutRecord.mk 1 1383260400000 5).internet_traffic ≠ 0 := by
  apply no_zero_traffic_in_output.2 validFile [⟨1, 1383260400000, 5⟩]
  · norm_num [clean_data, read_and_preprocess, establishedWidth, indexWidth,
      lineToRecordFrom, select, fillna, validFile, aggregate_data, aggKeys,
      groupSum, resample_data, rkeys, rkey, bucketSum, bucketStartFrom,
      originOf, earliestTime, startOfDay, dayMs, hourMs, min_self,
      List.dedup_cons_of_mem, List.dedup_cons_of_not_mem, Except.map]
  · exact List.mem_singleton.mpr rfl

/-- C3: `df.fillna(0)` turns a missing value of any of the eight columns,
identifier and timestamp columns included, into the number `0`, and the
Loader projects the selected columns only after that replacement. -/
theorem fillna_replaces_missing_with_zero (r : RawRecord) :
    ((r.square_id = none → (fillna r).square_id = 0)
      ∧ (r.time_interval = none → (fillna r).time_interval = 0)
      ∧ (r.country_code = none → (fillna r).country_code = 0)
      ∧ (r.sms_in = none → (fillna r).sms_in = 0)
      ∧ (r.sms_out = none → (fillna r).sms_out = 0)
      ∧ (r.call_in = none → (fillna r).call_in = 0)
      ∧ (r.call_out = none → (fillna r).call_out = 0)
      ∧ (r.internet_traffic = none → (fillna r).internet_traffic = 0))
    ∧ ∀ file : RawFile, (∀ line ∈ file, line.length ≤ 8) →
        read_and_preprocess file
          = .ok (file.map (fun line => select (fillna (lineToRecord line)))) := by
  constructor
  · refine ⟨?_, ?_, ?_, ?_, ?_, ?_, ?_, ?_⟩ <;> intro h <;> simp [fillna, h]
  · intro file hfile
    have hcond : ¬(file.any
        (fun line => establishedWidth file < line.length) = true) := by
      intro hc
      obtain ⟨line, hline, hlen⟩ := List.any_eq_true.mp hc
      have h8 : line.length ≤ 8 := hfile line hline
      have hw : establishedWidth file < line.length := of_decide_eq_true hlen
      have h8w : 8 ≤ establishedWidth file := le_max_left _ _
      omega
    have h0 : indexWidth file = 0 := by
      unfold indexWidth
      cases file with
      | nil => rfl
      | cons l0 rest =>
        have hl0 : l0.length ≤ 8 := hfile l0 (List.mem_cons_self _ _)
        simp only [List.headD_cons]
        omega
    unfold read_and_preprocess
    rw [if_neg hcond, h0]
    rfl

/-- Witness for C3: the all-missing line fills to zeros, and the loader
accepts the three-field file. -/
theorem fillna_replaces_missing_with_zero_witness :
    (fillna allMissingRecord).square_id = 0
    ∧ (fillna allMissingRecord).time_interval = 0
    ∧ (fillna allMissingRecord).internet_traffic = 0
    ∧ read_and_preprocess shortLineFile
        = .ok (shortLineFile.map (fun line => select (fillna (lineToRecord line)))) := by
  have h := fillna_replaces_missing_with_zero allMissingRecord
  exact ⟨h.1.1 rfl, h.1.2.1 rfl, h.1.2.2.2.2.2.2.2 rfl,
    h.2 shortLineFile (by decide)⟩

/-- C4: the `(square_id, bucket)` key pairs of the rows the resampler
emits for one file are pairwise distinct. -/
theorem output_keys_nodup (agg : List AggRecord) (freq : ℚ) :
    ((resample_data agg freq).map
        (fun o => (o.square_id, o.time_interval))).Nodup := by
  have hsub : List.Sublist (resample_data agg freq)
      ((rkeys agg freq).map
        (fun k => OutRecord.mk k.1 k.2 (bucketSum agg freq k))) :=
    List.filter_sublist _
  refine List.Nodup.sublist (hsub.map _) ?_
  rw [List.map_map]
  have hcomp : ((fun o : OutRecord => (o.square_id, o.time_interval))
      ∘ fun k : RKey => OutRecord.mk k.1 k.2 (bucketSum agg freq k)) = id := by
    funext k
    rfl
  rw [hcomp, List.map_id]
  exact List.nodup_dedup _

/-- C10: a `(square_id, bucket)` pair appears in the resampler output
exactly when some aggregated row populates it and its bucket sum is
strictly positive, so zero-sum and negative-sum buckets alike are
absent. -/
theorem output_row_iff_positive_bucket (agg : List AggRecord) (freq : ℚ)
    (k : RKey) :
    (∃ o ∈ resample_data agg freq, (o.square_id, o.time_interval) = k)
      ↔ k ∈ rkeys agg freq ∧ 0 < bucketSum agg freq k := by
  constructor
  · rintro ⟨o, ho, hk⟩
    obtain ⟨k', hk', hpos, rfl⟩ := mem_resample_data.mp ho
    have hkk : k' = k := hk
    exact ⟨hkk ▸ hk', hkk ▸ hpos⟩
  · rintro ⟨hk, hpos⟩
    exact ⟨⟨k.1, k.2, bucketSum agg freq k⟩,
      mem_resample_data.mpr ⟨k, hk, hpos, rfl⟩, rfl⟩

/-- C7 (behaviour at the failing input): the valid demo file cleans on its
own, the ragged file (an eight-field line followed by a nine-field line)
raises the parse error, and when the ragged file precedes the valid one
in the directory listing the unguarded loop propagates the error and the
valid file is never processed. -/
theorem failure_aborts_remaining_files :
    clean_data validFile = .ok [⟨1, 1383260400000, 5⟩]
    ∧ clean_data raggedFile = .error .malformedInputError
    ∧ process_files [("sms-call-internet-mi-2013-11-01", raggedFile),
        ("sms-call-internet-mi-2013-11-02", validFile)]
      = ([], some .malformedInputError) := by
  refine ⟨?_, ?_, ?_⟩
  · norm_num [clean_data, read_and_preprocess, establishedWidth, indexWidth,
      lineToRecordFrom, select, fillna, validFile, aggregate_data, aggKeys,
      groupSum, resample_data, rkeys, rkey, bucketSum, bucketStartFrom,
      originOf, earliestTime, startOfDay, dayMs, hourMs, min_self,
      List.dedup_cons_of_mem, List.dedup_cons_of_not_mem, Except.map]
  · norm_num [clean_data, read_and_preprocess, establishedWidth, indexWidth,
      raggedFile, Except.map]
  · norm_num [process_files, clean_data, read_and_preprocess,
      establishedWidth, indexWidth, raggedFile, Except.map]

/-- C8 counterexample: two files violating the eight-column schema load
without any error.  A line of three fields is accepted with the absent
fields read as missing and filled with zero, and a file whose first line
carries nine fields is accepted with its leading field promoted to the
index. -/
theorem schema_mismatch_loads_without_error :
    (∃ line ∈ shortLineFile, line.length ≠ 8)
    ∧ read_and_preprocess shortLineFile = .ok [⟨1, 1000, 0⟩]
    ∧ (∃ line ∈ overwideFirstLineFile, line.length ≠ 8)
    ∧ read_and_preprocess overwideFirstLineFile = .ok [⟨1, 1, 9⟩] := by
  refine ⟨?_, ?_, ?_, ?_⟩
  · exact ⟨[some 1, some 1000, some 39], List.mem_singleton.mpr rfl, by decide⟩
  · norm_num [read_and_preprocess, establishedWidth, indexWidth,
      shortLineFile, select, fillna, lineToRecordFrom]
  · exact ⟨[some 1, some 1, some 1, some 1, some 1, some 1, some 1, some 1,
      some 9], List.mem_singleton.mpr rfl, by decide⟩
  · norm_num [read_and_preprocess, establishedWidth, indexWidth,
      overwideFirstLineFile, select, fillna, lineToRecordFrom]

/-- C8 as amended: the Loader raises its parse error exactly when some
line is wider than the table width established by the first line and the
eight column names; a first-line-overwide file and short lines both load
without error. -/
theorem loader_error_iff_wider_than_established (file : RawFile) :
    read_and_preprocess file = .error .malformedInputError
      ↔ ∃ line ∈ file, establishedWidth file < line.length := by
  unfold read_and_preprocess
  split_ifs with h
  · simp only [List.any_eq_true, decide_eq_true_eq] at h
    exact iff_of_true rfl h
  · simp only [List.any_eq_true, decide_eq_true_eq] at h
    exact iff_of_false (by simp) h

/-- C6: the aggregation stage forms one row per `(square_id,
time_interval)` key under exact key equality, carrying the sum of the
traffic of the rows of that group, and a key reaches the output exactly
when some input row carries it — no group is dropped, a zero group sum
included. -/
theorem aggregate_exact_groups_no_drop (rows : List Selected) :
    (∀ a ∈ aggregate_data rows,
        a.internet_traffic = groupSum rows (a.square_id, a.time_interval))
    ∧ ∀ k : AggKey,
        (∃ a ∈ aggregate_data rows, (a.square_id, a.time_interval) = k)
          ↔ ∃ r ∈ rows, (r.square_id, r.time_interval) = k := by
  constructor
  · intro a ha
    unfold aggregate_data at ha
    obtain ⟨k, -, rfl⟩ := List.mem_map.mp ha
    rfl
  · intro k
    constructor
    · rintro ⟨a, ha, hk⟩
      unfold aggregate_data at ha
      obtain ⟨k', hk', rfl⟩ := List.mem_map.mp ha
      have hkk : k' = k := hk
      subst hkk
      exact List.mem_map.mp (List.mem_dedup.mp hk')
    · rintro ⟨r, hr, hkey⟩
      refine ⟨⟨k.1, k.2, groupSum rows k⟩, ?_, rfl⟩
      unfold aggregate_data
      exact List.mem_map.mpr
        ⟨k, List.mem_dedup.mpr (List.mem_map.mpr ⟨r, hr, hkey⟩), rfl⟩

/-- Witness for C6 on a concrete group whose traffic sums to zero: the
group is still represented, with value equal to its group sum. -/
theorem aggregate_exact_groups_no_drop_witness :
    (AggRecord.mk 1 5 0).internet_traffic = groupSum zeroGroupRows (1, 5)
    ∧ ∃ r ∈ zeroGroupRows,
        (r.square_id, r.time_interval) = ((1 : ℚ), (5 : ℚ)) := by
  have hagg : aggregate_data zeroGroupRows = [⟨1, 5, 0⟩] := by
    norm_num [aggregate_data, aggKeys, groupSum, zeroGroupRows,
      List.dedup_cons_of_mem, List.dedup_cons_of_not_mem]
  have hmem : (AggRecord.mk 1 5 0) ∈ aggregate_data zeroGroupRows := by
    rw [hagg]
    exact List.mem_singleton.mpr rfl
  refine ⟨(aggregate_exact_groups_no_drop zeroGroupRows).1 _ hmem, ?_⟩
  exact ((aggregate_exact_groups_no_drop zeroGroupRows).2 (1, 5)).mp
    ⟨⟨1, 5, 0⟩, hmem, rfl⟩

/-- C5 counterexample: at a seven-hour frequency, with data on the second
day, the single output row is labeled 86400000 — midnight of that day,
the start-day origin — which is not an integer multiple of the frequency
from the epoch.  Buckets are therefore not anchored at epoch multiples of
a general frequency. -/
theorem bucket_not_epoch_anchored :
    resample_data [⟨1, 86400000, 5⟩] 25200000 = [⟨1, 86400000, 5⟩]
    ∧ ¬∃ n : ℤ, (86400000 : ℚ) = 25200000 * n := by
  constructor
  · norm_num [resample_data, rkeys, rkey, bucketSum, bucketStartFrom,
      originOf, earliestTime, startOfDay, dayMs, min_self,
      List.dedup_cons_of_mem, List.dedup_cons_of_not_mem]
  · rintro ⟨n, hn⟩
    have h7 : (7 : ℚ) * n = 24 := by linarith
    have h7z : (7 : ℤ) * n = 24 := by exact_mod_cast h7
    omega

/-- C5 as amended: per square, buckets are consecutive, non-overlapping,
fixed-width, left-closed and left-labeled from the start-day origin of
that square (each timestamp falls in exactly one aligned bucket); the
bucket boundaries are integer multiples of the frequency from the epoch
whenever the frequency divides 24 hours — in particular at the hourly
default — and the 10:05 / 10:40 hourly scenario produces the single row
(7, 10:00, 10). -/
theorem resample_bucket_alignment :
    (∀ origin freq t : ℚ, 0 < freq →
        (∃ n : ℤ, bucketStartFrom origin freq t = origin + freq * n)
        ∧ bucketStartFrom origin freq t ≤ t
        ∧ t < bucketStartFrom origin freq t + freq
        ∧ ∀ n : ℤ, origin + freq * n ≤ t → t < origin + freq * n + freq →
            bucketStartFrom origin freq t = origin + freq * n)
    ∧ (∀ freq t u : ℚ, 0 < freq → (∃ c : ℤ, dayMs = freq * c) →
        ∃ n : ℤ, bucketStartFrom (startOfDay u) freq t = freq * n)
    ∧ resample_data [⟨7, 36300000, 4⟩, ⟨7, 38400000, 6⟩] hourMs
        = [⟨7, 36000000, 10⟩] := by
  refine ⟨?_, ?_, ?_⟩
  · intro origin freq t hf
    refine ⟨⟨⌊(t - origin) / freq⌋, rfl⟩, ?_, ?_, ?_⟩
    · have h1 : ((⌊(t - origin) / freq⌋ : ℤ) : ℚ) ≤ (t - origin) / freq :=
        Int.floor_le _
      have h1m : freq * ((⌊(t - origin) / freq⌋ : ℤ) : ℚ)
          ≤ freq * ((t - origin) / freq) :=
        mul_le_mul_of_nonneg_left h1 hf.le
      have h1e : freq * ((t - origin) / freq) = t - origin := by field_simp
      unfold bucketStartFrom
      linarith
    · have h2 : (t - origin) / freq < (⌊(t - origin) / freq⌋ : ℤ) + 1 :=
        Int.lt_floor_add_one _
      have h3 : t - origin < ((⌊(t - origin) / freq⌋ : ℤ) + 1) * freq :=
        (div_lt_iff₀ hf).mp h2
      unfold bucketStartFrom
      push_cast at h3 ⊢
      linarith
    · intro n hn1 hn2
      have hfl : ⌊(t - origin) / freq⌋ = n := by
        rw [Int.floor_eq_iff]
        constructor
        · exact (le_div_iff₀ hf).mpr (by linarith)
        · exact (div_lt_iff₀ hf).mpr (by linarith)
      unfold bucketStartFrom
      rw [hfl]
  · rintro freq t u hf ⟨c, hc⟩
    refine ⟨c * ⌊u / dayMs⌋ + ⌊(t - startOfDay u) / freq⌋, ?_⟩
    have h1 : startOfDay u = freq * ((c * ⌊u / dayMs⌋ : ℤ) : ℚ) := by
      unfold startOfDay
      rw [hc]
      push_cast
      ring
    unfold bucketStartFrom
    rw [h1]
    push_cast
    ring
  · norm_num [resample_data, rkeys, rkey, bucketSum, bucketStartFrom,
      originOf, earliestTime, startOfDay, dayMs, hourMs, min_self, min_def,
      List.dedup_cons_of_mem, List.dedup_cons_of_not_mem]

/-- Witness for the amended C5: the hourly frequency at the 10:05
timestamp with origin midnight, and epoch alignment of an hourly bucket
under a start-day origin. -/
theorem resample_bucket_alignment_witness :
    (∃ n : ℤ, bucketStartFrom 0 hourMs 36300000 = 0 + hourMs * n)
    ∧ bucketStartFrom 0 hourMs 36300000 ≤ 36300000
    ∧ (36300000 : ℚ) < bucketStartFrom 0 hourMs 36300000 + hourMs
    ∧ ∃ n : ℤ, bucketStartFrom (startOfDay 1383260400000) hourMs 1383260400000
        = hourMs * n := by
  have h := resample_bucket_alignment.1 0 hourMs 36300000
    (by norm_num [hourMs])
  have h2 := resample_bucket_alignment.2.1 hourMs 1383260400000 1383260400000
    (by norm_num [hourMs]) ⟨24, by norm_num [dayMs, hourMs]⟩
  exact ⟨h.1, h.2.1, h.2.2.1, h2⟩

/-- C9 counterexample: the per-file pipeline has no frequency parameter;
on a file whose half-hourly resampling differs from its hourly one, the
driver output is the hourly result, not the half-hourly one. -/
theorem driver_ignores_configured_frequency :
    read_and_preprocess freqDemoFile = .ok freqDemoRows
    ∧ clean_data freqDemoFile = .ok [⟨1, 0, 3⟩]
    ∧ resample_data (aggregate_data freqDemoRows) 1800000
        = [⟨1, 0, 1⟩, ⟨1, 1800000, 2⟩]
    ∧ ([⟨1, 0, 3⟩] : List OutRecord) ≠ [⟨1, 0, 1⟩, ⟨1, 1800000, 2⟩] := by
  refine ⟨?_, ?_, ?_, ?_⟩
  · norm_num [read_and_preprocess, establishedWidth, indexWidth,
      freqDemoFile, freqDemoRows, select, fillna, lineToRecordFrom]
  · norm_num [clean_data, read_and_preprocess, establishedWidth, indexWidth,
      lineToRecordFrom, select, fillna, freqDemoFile, aggregate_data,
      aggKeys, groupSum, resample_data, rkeys, rkey, bucketSum,
      bucketStartFrom, originOf, earliestTime, startOfDay, dayMs, hourMs,
      min_self, min_def, List.dedup_cons_of_mem, List.dedup_cons_of_not_mem,
      Except.map]
  · norm_num [resample_data, aggregate_data, aggKeys, groupSum, freqDemoRows,
      rkeys, rkey, bucketSum, bucketStartFrom, originOf, earliestTime,
      startOfDay, dayMs, min_self, min_def, List.dedup_cons_of_mem,
      List.dedup_cons_of_not_mem]
  · simp

/-- C9 as amended: `resample_data` does take a frequency argument whose
default is hourly, but `clean_data` and `process_files` never pass one, so
every successful per-file run is hourly: every output bucket timestamp is
an integer multiple of one hour. -/
theorem driver_output_hourly_aligned (file : RawFile) (out : List OutRecord)
    (h : clean_data file = .ok out) (o : OutRecord) (ho : o ∈ out) :
    ∃ n : ℤ, o.time_interval = hourMs * n := by
  obtain ⟨rows, -, rfl⟩ := clean_data_ok h
  obtain ⟨k, hk, -, rfl⟩ := mem_resample_data.mp ho
  obtain ⟨a, -, rfl⟩ := List.mem_map.mp (List.mem_dedup.mp hk)
  refine ⟨24 * ⌊earliestTime (aggregate_data rows) a.square_id / dayMs⌋
      + ⌊(a.time_interval
            - originOf (aggregate_data rows) a.square_id) / hourMs⌋, ?_⟩
  show bucketStartFrom (originOf (aggregate_data rows) a.square_id) hourMs
      a.time_interval = _
  unfold bucketStartFrom originOf startOfDay dayMs hourMs
  push_cast
  ring

/-- Witness for the amended C9 at the valid demo file. -/
theorem driver_output_hourly_aligned_witness :
    ∃ n : ℤ, (OutRecord.mk 1 1383260400000 5).time_interval = hourMs * n := by
  apply driver_output_hourly_aligned validFile [⟨1, 1383260400000, 5⟩]
  · norm_num [clean_data, read_and_preprocess, establishedWidth, indexWidth,
      lineToRecordFrom, select, fillna, validFile, aggregate_data, aggKeys,
      groupSum, resample_data, rkeys, rkey, bucketSum, bucketStartFrom,
      originOf, earliestTime, startOfDay, dayMs, hourMs, min_self,
      List.dedup_cons_of_mem, List.dedup_cons_of_not_mem, Except.map]
  · exact List.mem_singleton.mpr rfl

/-- C1: per square, the traffic kept in the resampler output plus the
traffic of the buckets removed by the drop rule equals the traffic of the
aggregated (pre-resample) rows — resampling itself neither loses nor
invents traffic, at any frequency. -/
theorem conservation_per_square (agg : List AggRecord) (freq sid : ℚ) :
    outSumFor (resample_data agg freq) sid + droppedSumFor agg freq sid
      = aggSumFor agg sid := by
  have hA : outSumFor (resample_data agg freq) sid
      = (((rkeys agg freq).filter
            (fun k => decide (k.1 = sid)
              && decide (0 < bucketSum agg freq k))).map
          (fun k => bucketSum agg freq k)).sum := by
    unfold outSumFor resample_data
    rw [List.filter_filter]
    exact sum_map_filter_map _ _ _ _
  have hB : droppedSumFor agg freq sid
      = (((rkeys agg freq).filter
            (fun k => decide (k.1 = sid)
              && !decide (0 < bucketSum agg freq k))).map
          (fun k => bucketSum agg freq k)).sum := by
    unfold droppedSumFor
    refine congrArg
      (fun l : List RKey => (l.map (fun k => bucketSum agg freq k)).sum) ?_
    apply List.filter_congr
    intro k hk
    by_cases h1 : k.1 = sid <;> by_cases h2 : 0 < bucketSum agg freq k
    · simp [h1, h2, not_le.mpr h2]
    · simp [h1, h2, not_lt.mp h2]
    · simp [h1]
    · simp [h1]
  have hC : (((rkeys agg freq).filter (fun k => decide (k.1 = sid))).map
        (fun k => bucketSum agg freq k)).sum = aggSumFor agg sid := by
    have hAnodup : ((rkeys agg freq).filter
        (fun k => decide (k.1 = sid))).Nodup :=
      List.Nodup.filter _ (List.nodup_dedup _)
    have hBnodup : (((agg.filter (fun a => a.square_id = sid)).map
        (rkey agg freq)).dedup).Nodup :=
      List.nodup_dedup _
    have hmemiff : ∀ k : RKey,
        k ∈ (rkeys agg freq).filter (fun k => decide (k.1 = sid))
          ↔ k ∈ ((agg.filter (fun a => a.square_id = sid)).map
              (rkey agg freq)).dedup := by
      intro k
      constructor
      · intro hk
        obtain ⟨hk1, hk2⟩ := List.mem_filter.mp hk
        have hsid : k.1 = sid := of_decide_eq_true hk2
        obtain ⟨a, ha, hak⟩ := List.mem_map.mp (List.mem_dedup.mp hk1)
        apply List.mem_dedup.mpr
        apply List.mem_map.mpr
        refine ⟨a, List.mem_filter.mpr ⟨ha, ?_⟩, hak⟩
        have hax : a.square_id = k.1 := congrArg Prod.fst hak
        simp [hax, hsid]
      · intro hk
        obtain ⟨a, ha, hak⟩ := List.mem_map.mp (List.mem_dedup.mp hk)
        obtain ⟨ha1, ha2⟩ := List.mem_filter.mp ha
        have hsida : a.square_id = sid := of_decide_eq_true ha2
        apply List.mem_filter.mpr
        refine ⟨List.mem_dedup.mpr (List.mem_map.mpr ⟨a, ha1, hak⟩), ?_⟩
        have hax : a.square_id = k.1 := congrArg Prod.fst hak
        simp [← hax, hsida]
    have hperm := (List.perm_ext_iff_of_nodup hAnodup hBnodup).mpr hmemiff
    have hsummand : ∀ k ∈ ((agg.filter (fun a => a.square_id = sid)).map
          (rkey agg freq)).dedup,
        bucketSum agg freq k
          = (((agg.filter (fun a => a.square_id = sid)).filter
              (fun x => rkey agg freq x = k)).map
            (fun a => a.internet_traffic)).sum := by
      intro k hk
      obtain ⟨a0, ha0, hak⟩ := List.mem_map.mp (List.mem_dedup.mp hk)
      have hsid : k.1 = sid := by
        have h1 : a0.square_id = sid :=
          of_decide_eq_true (List.mem_filter.mp ha0).2
        have h2 : a0.square_id = k.1 := congrArg Prod.fst hak
        rw [← h2, h1]
      unfold bucketSum
      refine congrArg (fun l : List AggRecord => (l.map (fun a =>
        a.internet_traffic)).sum) ?_
      rw [List.filter_filter]
      apply List.filter_congr
      intro x hx
      by_cases hxk : rkey agg freq x = k
      · have hxs : x.square_id = sid := by
          have := congrArg Prod.fst hxk
          rw [← hsid]
          exact this
        simp [hxk, hxs]
      · simp [hxk]
    calc (((rkeys agg freq).filter (fun k => decide (k.1 = sid))).map
          (fun k => bucketSum agg freq k)).sum
        = ((((agg.filter (fun a => a.square_id = sid)).map
              (rkey agg freq)).dedup).map
            (fun k => bucketSum agg freq k)).sum :=
          (hperm.map _).sum_eq
      _ = ((((agg.filter (fun a => a.square_id = sid)).map
              (rkey agg freq)).dedup).map
            (fun k => (((agg.filter (fun a => a.square_id = sid)).filter
                (fun x => rkey agg freq x = k)).map
              (fun a => a.internet_traffic)).sum)).sum :=
          congrArg List.sum (List.map_congr_left hsummand)
      _ = ((agg.filter (fun a => a.square_id = sid)).map
            (fun a => a.internet_traffic)).sum :=
          sum_fiberwise _ _ _
      _ = aggSumFor agg sid := rfl
  rw [hA, hB,
    sum_map_filter_split (rkeys agg freq) (fun k => decide (k.1 = sid))
      (fun k => decide (0 < bucketSum agg freq k))
      (fun k => bucketSum agg freq k),
    hC]

end MilanPipeline
